import Mathlib

/-!
Verification of the chessbot vision/selection core.

Shallow embedding of the Python sources:
  * `src/piece_recognizer.py` — `board_to_fen`, `detect_orientation`, `positions_to_fen`
  * `src/main.py`            — `ChessVision._infer_current_turn` and the turn-update
                               part of `ChessVision.scan`
  * `src/board_detector.py`  — the contour bounding-box filter of `detect_board`
  * `src/move_selector.py`   — `HumanMoveSelector` (pressure, trend, criticality,
                               opponent factor, temperature, select_move, accuracy)

Strings are modelled as `List Char` (characters of the Python `str`), machine
floats as exact rationals `ℚ`, and Python ints as `ℤ`/`ℕ`.  The external rules
oracle (`chess.Board(...).is_valid()` from the python-chess library, not part of
this repository) is abstracted as a parameter `valid : List Char → String → Bool`;
the randomized `random.choices` call inside `_weighted_select` is abstracted as a
parameter `pick : List Cand → ℚ → String`.
-/

/-- A cell of the 8×8 board: `none` for empty, `some c` for a FEN piece letter. -/
abbrev Cell := Option Char

/-- The 12 FEN piece symbols, the values of `PIECE_NAMES` in
`src/piece_recognizer.py`. -/
def pieceChars : List Char :=
  ['K', 'Q', 'R', 'B', 'N', 'P', 'k', 'q', 'r', 'b', 'n', 'p']

/-- Python `s.split("/")` for a single-character separator: splits at every
occurrence of `'/'`, keeping empty groups. -/
def splitSlash : List Char → List (List Char)
  | [] => [[]]
  | c :: rest =>
    if c = '/' then [] :: splitSlash rest
    else
      match splitSlash rest with
      | g :: gs => (c :: g) :: gs
      | [] => [[c]]

/-- Python `"/".join(rows)`. -/
def joinSlash : List (List Char) → List Char
  | [] => []
  | [g] => g
  | g :: gs => g ++ '/' :: joinSlash gs

/-- Python `int(ch)` for an ASCII digit character. -/
def digitVal (c : Char) : Nat := c.toNat - 48

/-- The character expansion inside `expand` of `ChessVision._infer_current_turn`
(`src/main.py` lines 145-151): a digit becomes that many empty cells, any other
character becomes a piece cell. -/
def expandChars : List Char → List Cell
  | [] => []
  | c :: rest =>
    if c.isDigit then List.replicate (digitVal c) none ++ expandChars rest
    else some c :: expandChars rest

/-- Function `expand` of `ChessVision._infer_current_turn` (`src/main.py` line 152):
expand the group, then pad with empties and truncate to exactly 8 cells
(Python `(out + [None] * 8)[:8]`). -/
def expand (g : List Char) : List Cell :=
  (expandChars g ++ List.replicate 8 none).take 8

/-- The row encoder of `board_to_fen` (`src/piece_recognizer.py` lines 153-166):
run-length-encode runs of empty cells, with `empty` the pending run length. -/
def encRowAux : List Cell → Nat → List Char
  | [], empty => if 0 < empty then Nat.toDigits 10 empty else []
  | none :: rest, empty => encRowAux rest (empty + 1)
  | some c :: rest, empty =>
    (if 0 < empty then Nat.toDigits 10 empty else []) ++ c :: encRowAux rest 0

/-- One row of `board_to_fen`. -/
def encRow (row : List Cell) : List Char := encRowAux row 0

/-- Embedding of `board_to_fen` (`src/piece_recognizer.py` lines 150-167).  The
`white_on_bottom` argument exists in the source signature but is never read by
the body. -/
def board_to_fen (positions : List (List Cell)) ( white_on_bottom : Bool := true) :
    List Char :=
  joinSlash (positions.map encRow)

/-- Count of uppercase (white) piece codes in the first 8 cells of a row,
as in `detect_orientation`'s per-row loop. -/
def rowWhiteCount (row : List Cell) : Nat :=
  (row.take 8).countP fun p =>
    match p with
    | some c => c.isUpper
    | none => false

/-- Embedding of `detect_orientation` (`src/piece_recognizer.py` lines 170-183): white is on
the bottom when the bottom two rows hold at least as many white pieces as the
top two rows. -/
def detect_orientation (positions : List (List Cell)) : Bool :=
  let white_bottom := rowWhiteCount (positions.getD 6 []) +
    rowWhiteCount (positions.getD 7 [])
  let white_top := rowWhiteCount (positions.getD 0 []) +
    rowWhiteCount (positions.getD 1 [])
  white_top ≤ white_bottom

/-- Embedding of `positions_to_fen` (`src/piece_recognizer.py` lines 186-196): build the
placement with `board_to_fen`, and when white is not on the bottom reverse the
row order and each row's characters; then append turn and fixed FEN fields. -/
def positions_to_fen (positions : List (List Cell)) (turn : List Char) :
    List Char :=
  let white_bottom := detect_orientation positions
  let piece_placement := board_to_fen positions white_bottom
  let piece_placement :=
    if white_bottom then piece_placement
    else joinSlash (((splitSlash piece_placement).reverse).map List.reverse)
  piece_placement ++ ' ' :: (turn ++ (' ' :: "KQkq - 0 1".data))

/-- One rank's contribution to the diff loop of `ChessVision._infer_current_turn`
(`src/main.py` lines 158-168): `(changed, white_arrived, black_arrived)`. -/
def rankCounts (oldRank newRank : List Cell) : Nat × Nat × Nat :=
  (oldRank.zip newRank).foldl
    (fun acc p =>
      if p.1 ≠ p.2 then
        match p.2 with
        | some c =>
          if c.isUpper then (acc.1 + 1, acc.2.1 + 1, acc.2.2)
          else (acc.1 + 1, acc.2.1, acc.2.2 + 1)
        | none => (acc.1 + 1, acc.2.1, acc.2.2)
      else acc)
    (0, 0, 0)

/-- The split, length check and diff loop of `ChessVision._infer_current_turn`
(`src/main.py` lines 140-168): `none` when either position does not split into
exactly 8 groups, otherwise the totals `(changed, white_arrived, black_arrived)`
over the cell-by-cell diff of the expanded ranks. -/
def diffCounts (old_fen_pos new_fen_pos : List Char) : Option (Nat × Nat × Nat) :=
  let old_rows := splitSlash old_fen_pos
  let new_rows := splitSlash new_fen_pos
  if old_rows.length = 8 ∧ new_rows.length = 8 then
    some (((old_rows.map expand).zip (new_rows.map expand)).foldl
      (fun acc p =>
        let c := rankCounts p.1 p.2
        (acc.1 + c.1, acc.2.1 + c.2.1, acc.2.2 + c.2.2))
      (0, 0, 0))
  else none

/-- Embedding of `ChessVision._infer_current_turn` (`src/main.py` lines 134-179). -/
def infer_current_turn (old_fen_pos new_fen_pos : List Char) : Option String :=
  match diffCounts old_fen_pos new_fen_pos with
  | none => none
  | some (changed, white_arrived, black_arrived) =>
    if 6 < changed then none
    else if black_arrived < white_arrived then some "b"
    else if white_arrived < black_arrived then some "w"
    else none

/-- Python `"b" if self.current_turn == "w" else "w"` (`src/main.py` line 246). -/
def toggle (turn : String) : String := if turn = "w" then "b" else "w"

/-- The turn-update logic of `ChessVision.scan` (`src/main.py` lines 237-258),
with the python-chess validity oracle abstracted as `valid`: use the inferred
turn when inference succeeds; otherwise `picked` starts as the toggled turn and
the loop over `[toggled, current]` keeps the first candidate that validates. -/
def scanTurnUpdate (valid : List Char → String → Bool)
    (last_fen_position fen_position : List Char) (current_turn : String) :
    String :=
  match infer_current_turn last_fen_position fen_position with
  | some inferred => inferred
  | none =>
    let toggled := toggle current_turn
    if valid fen_position toggled then toggled
    else if valid fen_position current_turn then current_turn
    else toggled

/-- The accept step of `ChessVision.scan` (`src/main.py` lines 237-260), for a
stable changed position with a previously accepted position: the pair
`(new accepted position, new accepted turn)`. -/
def scanAccept (valid : List Char → String → Bool)
    (last_fen_position fen_position : List Char) (current_turn : String) :
    List Char × String :=
  (fen_position, scanTurnUpdate valid last_fen_position fen_position current_turn)

/-- The bounding-box aspect ratio of `detect_board`
(`src/board_detector.py` line 52): `w / h if h > 0 else 0`. -/
def aspect (w h : Nat) : ℚ := if 0 < h then (w : ℚ) / h else 0

/-- The contour bounding-box filter of `detect_board`
(`src/board_detector.py` lines 47-53): a box survives when its area passes the
minimum (`area < 10000` skips) and its aspect ratio passes `0.8 < aspect < 1.2`. -/
def box_keeps (w h : Nat) : Bool :=
  (!decide (w * h < 10000)) &&
    (decide ((0.8 : ℚ) < aspect w h) && decide (aspect w h < (1.2 : ℚ)))

/-- Game phase (the four keys of the base-temperature dict in
`HumanMoveSelector._compute_temperature`). -/
inductive Phase
  | opening
  | early_middle
  | middlegame
  | endgame
deriving DecidableEq

/-- Embedding of `HumanMoveSelector._get_phase` (`src/move_selector.py` lines 132-139),
with thresholds `OPENING_PIECES = 28`, `EARLY_MID_PIECES = 22`,
`MIDDLE_PIECES = 16`. -/
def get_phase (piece_count : Nat) : Phase :=
  if 28 ≤ piece_count then .opening
  else if 22 ≤ piece_count then .early_middle
  else if 16 ≤ piece_count then .middlegame
  else .endgame

/-- Embedding of `HumanMoveSelector._compute_pressure` (`src/move_selector.py` lines
145-160), with float arithmetic read as exact rational arithmetic. -/
def compute_pressure (eval_cp : ℚ) : ℚ :=
  if eval_cp ≤ -400 then 0
  else if eval_cp ≤ -200 then 0.25 * (eval_cp + 400) / 200
  else if eval_cp ≤ -100 then 0.25 + 0.25 * (eval_cp + 200) / 100
  else if eval_cp ≤ 0 then 0.50 + 0.25 * (eval_cp + 100) / 100
  else if eval_cp ≤ 150 then 0.75 + 0.25 * eval_cp / 150
  else if eval_cp ≤ 400 then 1.0 + 0.1 * (eval_cp - 150) / 250
  else 1.1

/-- Embedding of `HumanMoveSelector._compute_trend_urgency` (`src/move_selector.py` lines
166-184): least-squares slope of the last up to `TREND_WINDOW = 6` evals. -/
def compute_trend_urgency (eval_history : List ℤ) : ℚ :=
  if eval_history.length < 3 then 0
  else
    let window := eval_history.drop (eval_history.length - 6)
    let n := window.length
    let x_mean : ℚ := ((n : ℚ) - 1) / 2
    let y_mean : ℚ := (window.map fun v => (v : ℚ)).sum / n
    let numer : ℚ :=
      (window.enum.map fun p => ((p.1 : ℚ) - x_mean) * ((p.2 : ℚ) - y_mean)).sum
    let denom : ℚ := ((List.range n).map fun i => ((i : ℚ) - x_mean) ^ 2).sum
    if denom = 0 then 0
    else
      let slope := numer / denom
      if 0 ≤ slope then 0 else min 1 (|slope| / 100)

/-- One ranked engine candidate, the `{"move": ..., "eval": ...}` dicts returned
by `ChessEngine.get_top_moves`. -/
structure Cand where
  move : String
  eval : ℤ
deriving DecidableEq

/-- Embedding of `HumanMoveSelector._compute_criticality` (`src/move_selector.py` lines
190-207). -/
def compute_criticality (top_moves : List Cand) : ℚ :=
  match top_moves with
  | [] => 1
  | [_] => 1
  | best :: second :: _ =>
    let gap : ℚ := ((best.eval - second.eval : ℤ) : ℚ)
    if gap ≤ 30 then 0 else min 1 ((gap - 30) / 170)

/-- Embedding of `HumanMoveSelector._compute_opponent_factor` (`src/move_selector.py` lines
213-236). -/
def compute_opponent_factor (opponent_elo : Option ℤ) : ℚ :=
  match opponent_elo with
  | none => 1.0
  | some elo =>
    if 2200 ≤ elo then 0.6
    else if 1800 ≤ elo then 0.8 - 0.2 * ((elo : ℚ) - 1800) / 400
    else if 1400 ≤ elo then 1.0 - 0.2 * ((elo : ℚ) - 1400) / 400
    else if 1000 ≤ elo then 1.15 - 0.15 * ((elo : ℚ) - 1000) / 400
    else 1.2

/-- The phase-indexed base temperature dict in
`HumanMoveSelector._compute_temperature`. -/
def phase_base : Phase → ℚ
  | .opening => 45
  | .early_middle => 70
  | .middlegame => 60
  | .endgame => 35

/-- Embedding of `HumanMoveSelector._compute_temperature` (`src/move_selector.py` lines
242-290), with the instance fields `_move_number` and `_consecutive_best`
passed explicitly. -/
def compute_temperature (phase : Phase) (move_number consecutive_best : Nat)
    (pressure trend_urgency criticality opponent_factor : ℚ) : ℚ :=
  let base := phase_base phase
  let base :=
    if move_number < 6 then base * (0.55 + ((move_number : ℚ) / 6) * 0.45)
    else base
  let pressure_factor := 0.08 + 0.92 * pressure
  let trend_factor := 1.0 - 0.55 * trend_urgency
  let crit_factor := 1.0 - 0.65 * criticality
  let anti_engine :=
    if 5 ≤ consecutive_best then
      min (1.0 + 0.07 * ((consecutive_best : ℚ) - 4)) 1.35
    else 1.0
  let temperature :=
    base * pressure_factor * trend_factor * crit_factor * anti_engine *
      opponent_factor
  if pressure ≤ 0.15 then max 3 temperature else max 8 temperature

/-- The session state of `HumanMoveSelector` (`src/move_selector.py` lines
38-47). -/
structure SelectorState where
  eval_history : List ℤ
  move_number : Nat
  consecutive_best : Nat
  opponent_elo : Option ℤ
  total_moves : Nat
  best_move_hits : Nat
  total_cpl : ℚ
deriving DecidableEq

/-- Embedding of `HumanMoveSelector._record` (`src/move_selector.py` lines 318-323). -/
def record (s : SelectorState) (top_moves : List Cand) (chosen : String) :
    SelectorState :=
  { s with
    consecutive_best :=
      if (top_moves.head?.map Cand.move) = some chosen then
        s.consecutive_best + 1
      else 0
    move_number := s.move_number + 1 }

/-- Embedding of `HumanMoveSelector.reset` (`src/move_selector.py` lines 118-126), equally
the `__init__` state. -/
def resetState : SelectorState :=
  { eval_history := []
    move_number := 0
    consecutive_best := 0
    opponent_elo := none
    total_moves := 0
    best_move_hits := 0
    total_cpl := 0 }

/-- Embedding of `HumanMoveSelector.select_move` (`src/move_selector.py` lines 57-104).
`pick` abstracts `_weighted_select` (softmax sampling via `random.choices`);
`fallback_best` abstracts `self.engine.get_best_move(fen)`.  Returns the chosen
move together with the updated session state. -/
def select_move (pick : List Cand → ℚ → String) (fallback_best : Option String)
    (s : SelectorState) (top_moves : List Cand) (piece_count : Nat) :
    Option String × SelectorState :=
  match top_moves with
  | [] => (fallback_best, s)
  | [m] => (some m.move, record s [m] m.move)
  | best :: rest =>
    let best_eval := best.eval
    let s := { s with eval_history := s.eval_history ++ [best_eval] }
    let phase := get_phase piece_count
    let pressure := compute_pressure (best_eval : ℚ)
    let trend := compute_trend_urgency s.eval_history
    let criticality := compute_criticality (best :: rest)
    let opp_factor := compute_opponent_factor s.opponent_elo
    let temperature :=
      compute_temperature phase s.move_number s.consecutive_best pressure trend
        criticality opp_factor
    let chosen := pick (best :: rest) temperature
    let s := record s (best :: rest) chosen
    let chosen_eval :=
      (((best :: rest).find? fun m => m.move = chosen).map Cand.eval).getD
        best_eval
    let delta : ℚ := ((best_eval - chosen_eval : ℤ) : ℚ)
    let s :=
      { s with
        total_moves := s.total_moves + 1
        total_cpl := s.total_cpl + delta
        best_move_hits :=
          if chosen = best.move then s.best_move_hits + 1 else s.best_move_hits }
    (some chosen, s)

/-- Embedding of `HumanMoveSelector.get_accuracy` (`src/move_selector.py` lines 106-110). -/
def get_accuracy (s : SelectorState) : Option ℚ :=
  if s.total_moves = 0 then none
  else some (((s.best_move_hits : ℚ) / s.total_moves) * 100)

/-! ### Helper lemmas for the canonical-notation round trip -/

lemma pieceChars_not_digit : ∀ c ∈ pieceChars, ¬ c.isDigit := by decide

lemma pieceChars_not_slash : ∀ c ∈ pieceChars, c ≠ '/' := by decide

lemma expandChars_append (a b : List Char) :
    expandChars (a ++ b) = expandChars a ++ expandChars b := by
  induction a with
  | nil => rfl
  | cons c rest ih =>
    simp only [List.cons_append, expandChars]
    split_ifs <;> simp [ih, List.append_assoc]

lemma expandChars_digits (e : Nat) (h1 : 1 ≤ e) (h2 : e ≤ 8) :
    expandChars (Nat.toDigits 10 e) = List.replicate e none := by
  interval_cases e <;> decide

lemma expandChars_encRowAux (row : List Cell) (e : Nat)
    (hlen : e + row.length ≤ 8)
    (hnd : ∀ c : Char, some c ∈ row → ¬ c.isDigit) :
    expandChars (encRowAux row e) = List.replicate e none ++ row := by
  induction row generalizing e with
  | nil =>
    simp only [encRowAux]
    rcases Nat.eq_zero_or_pos e with he | he
    · subst he; simp [expandChars]
    · rw [if_pos he, expandChars_digits e he (by simpa using hlen)]
      simp
  | cons cell rest ih =>
    cases cell with
    | none =>
      simp only [encRowAux]
      rw [ih (e + 1) (by simp only [List.length_cons] at hlen; omega)
        (fun c hc => hnd c (List.mem_cons_of_mem _ hc))]
      rw [List.replicate_succ' e none]
      simp
    | some c =>
      simp only [encRowAux]
      rw [expandChars_append, expandChars,
        if_neg (hnd c (List.mem_cons_self _ _)),
        ih 0 (by simp only [List.length_cons] at hlen; omega)
          (fun c' hc' => hnd c' (List.mem_cons_of_mem _ hc'))]
      rcases Nat.eq_zero_or_pos e with he | he
      · subst he; simp [expandChars]
      · rw [if_pos he, expandChars_digits e he
          (by simp only [List.length_cons] at hlen; omega)]
        simp

lemma expand_encRow (row : List Cell) (hlen : row.length = 8)
    (hnd : ∀ c : Char, some c ∈ row → ¬ c.isDigit) :
    expand (encRow row) = row := by
  unfold expand encRow
  rw [expandChars_encRowAux row 0 (by omega) hnd]
  simp only [List.replicate_zero, List.nil_append]
  rw [← hlen, List.take_left]

lemma encRowAux_no_slash (row : List Cell) (e : Nat) (hlen : e + row.length ≤ 8)
    (hrow : ∀ c : Char, some c ∈ row → c ≠ '/') : '/' ∉ encRowAux row e := by
  induction row generalizing e with
  | nil =>
    simp only [encRowAux]
    split_ifs with he
    · have h8 : e ≤ 8 := by simpa using hlen
      interval_cases e <;> decide
    · simp
  | cons cell rest ih =>
    cases cell with
    | none =>
      exact ih (e + 1) (by simp only [List.length_cons] at hlen; omega)
        (fun c hc => hrow c (List.mem_cons_of_mem _ hc))
    | some c =>
      simp only [encRowAux]
      intro hmem
      rcases List.mem_append.mp hmem with hpre | hrest
      · rcases Nat.eq_zero_or_pos e with he | he
        · subst he; simp at hpre
        · rw [if_pos he] at hpre
          have h8 : e ≤ 8 := by simp only [List.length_cons] at hlen; omega
          interval_cases e <;> revert hpre <;> decide
      · rcases List.mem_cons.mp hrest with hc | htail
        · exact hrow c (List.mem_cons_self _ _) hc.symm
        · exact ih 0 (by simp only [List.length_cons] at hlen; omega)
            (fun c' hc' => hrow c' (List.mem_cons_of_mem _ hc')) htail

lemma splitSlash_no_slash (g : List Char) (h : '/' ∉ g) : splitSlash g = [g] := by
  induction g with
  | nil => rfl
  | cons c rest ih =>
    have hc : ¬ c = '/' := fun hc => h (hc ▸ List.mem_cons_self _ _)
    have hrest : '/' ∉ rest := fun hr => h (List.mem_cons_of_mem _ hr)
    simp only [splitSlash, if_neg hc, ih hrest]

lemma splitSlash_append_slash (g t : List Char) (h : '/' ∉ g) :
    splitSlash (g ++ '/' :: t) = g :: splitSlash t := by
  induction g with
  | nil => simp [splitSlash]
  | cons c rest ih =>
    have hc : ¬ c = '/' := fun hc => h (hc ▸ List.mem_cons_self _ _)
    have hrest : '/' ∉ rest := fun hr => h (List.mem_cons_of_mem _ hr)
    simp only [List.cons_append, splitSlash, if_neg hc]
    have happ : rest.append ('/' :: t) = rest ++ '/' :: t := rfl
    rw [happ, ih hrest]

lemma splitSlash_joinSlash (gs : List (List Char)) (hne : gs ≠ [])
    (h : ∀ g ∈ gs, '/' ∉ g) : splitSlash (joinSlash gs) = gs := by
  induction gs with
  | nil => exact absurd rfl hne
  | cons g rest ih =>
    cases rest with
    | nil => exact splitSlash_no_slash g (h g (List.mem_cons_self _ _))
    | cons g2 r2 =>
      have hjoin : joinSlash (g :: g2 :: r2) = g ++ '/' :: joinSlash (g2 :: r2) :=
        rfl
      rw [hjoin, splitSlash_append_slash g _ (h g (List.mem_cons_self _ _)),
        ih (by simp) (fun g' hg' => h g' (List.mem_cons_of_mem _ hg'))]

/-! ### Claim theorems -/

/-- C5: round-trip of the canonical notation — for every 8×8 grid of optional
piece codes, run-length-encoding each row's empty runs, joining the 8 groups
with `'/'`, and then expanding the groups back (digits to that many empty
cells, letters to pieces) reconstructs the identical 8×8 grid. -/
theorem canonical_roundtrip (grid : List (List Cell))
    (h8 : grid.length = 8)
    (hrow : ∀ row ∈ grid, row.length = 8)
    (hpc : ∀ row ∈ grid, ∀ cell ∈ row, cell ∈ none :: pieceChars.map some) :
    (splitSlash (board_to_fen grid true)).map expand = grid := by
  have hpc' : ∀ row ∈ grid, ∀ c : Char, some c ∈ row → c ∈ pieceChars := by
    intro row hr c hc
    have := hpc row hr (some c) hc
    simpa using this
  unfold board_to_fen
  rw [splitSlash_joinSlash (grid.map encRow)
    (by intro hnil; rw [List.map_eq_nil_iff] at hnil; rw [hnil] at h8; simp at h8)
    (by
      intro g hg
      rw [List.mem_map] at hg
      obtain ⟨row, hr, rfl⟩ := hg
      exact encRowAux_no_slash row 0 (by simp [hrow row hr])
        (fun c hc => pieceChars_not_slash c (hpc' row hr c hc)))]
  rw [List.map_map]
  have hpt : ∀ row ∈ grid, (expand ∘ encRow) row = row := fun row hr =>
    expand_encRow row (hrow row hr)
      (fun c hc => pieceChars_not_digit c (hpc' row hr c hc))
  conv_rhs => rw [← List.map_id grid]
  exact List.map_congr_left hpt

/-- C5 witness: the round trip at the concrete starting-position grid. -/
theorem canonical_roundtrip_witness :
    (splitSlash (board_to_fen
      ["rnbqkbnr".data.map some, "pppppppp".data.map some,
       List.replicate 8 none, List.replicate 8 none, List.replicate 8 none,
       List.replicate 8 none, "PPPPPPPP".data.map some,
       "RNBQKBNR".data.map some] true)).map expand =
      ["rnbqkbnr".data.map some, "pppppppp".data.map some,
       List.replicate 8 none, List.replicate 8 none, List.replicate 8 none,
       List.replicate 8 none, "PPPPPPPP".data.map some,
       "RNBQKBNR".data.map some] :=
  canonical_roundtrip _ (by decide) (by decide) (by decide)

/-- C7: whenever the engine adapter returns exactly one ranked candidate,
`select_move` returns that candidate's move directly — the result does not
depend on the softmax sampling abstraction `pick` at all, and only the
`_record` bookkeeping runs. -/
theorem single_candidate_returned :
    ∀ (pick : List Cand → ℚ → String) (fallback_best : Option String)
      (s : SelectorState) (m : Cand) (piece_count : Nat),
      (select_move pick fallback_best s [m] piece_count).1 = some m.move ∧
      (select_move pick fallback_best s [m] piece_count).2 =
        record s [m] m.move ∧
      ∀ pick' : List Cand → ℚ → String,
        select_move pick fallback_best s [m] piece_count =
          select_move pick' fallback_best s [m] piece_count :=
  fun _ _ _ _ _ => ⟨rfl, rfl, fun _ => rfl⟩

/-- C8: the piece-placement string built by `board_to_fen` depends only on the
grid — the `white_on_bottom` flag is ignored — and `positions_to_fen` applies
the orientation normalization (reverse row order and each row's characters)
only afterwards, to the flag-independent output. -/
theorem board_to_fen_ignores_flag :
    (∀ (positions : List (List Cell)) (b1 b2 : Bool),
      board_to_fen positions b1 = board_to_fen positions b2) ∧
    (∀ (positions : List (List Cell)) (turn : List Char),
      positions_to_fen positions turn =
        (if detect_orientation positions then board_to_fen positions true
         else joinSlash
           (((splitSlash (board_to_fen positions true)).reverse).map
             List.reverse)) ++ ' ' :: (turn ++ (' ' :: "KQkq - 0 1".data))) :=
  ⟨fun _ _ _ => rfl, fun _ _ => rfl⟩

/-- C10: turn inference is total on malformed canonical strings — if either
input does not split into exactly 8 `'/'`-separated groups the function
returns `none`, and each group is padded/truncated to exactly 8 cells before
the diff. -/
theorem infer_turn_total :
    (∀ old_p new_p : List Char,
      (splitSlash old_p).length ≠ 8 ∨ (splitSlash new_p).length ≠ 8 →
      infer_current_turn old_p new_p = none) ∧
    (∀ g : List Char, (expand g).length = 8) := by
  constructor
  · intro old_p new_p h
    have hd : diffCounts old_p new_p = none := by
      unfold diffCounts
      rw [if_neg (by tauto)]
    unfold infer_current_turn
    rw [hd]
  · intro g
    unfold expand
    rw [List.length_take, List.length_append, List.length_replicate]
    omega

/-- C10 witness: a malformed string (one group) yields `none`, and a short
group expands to exactly 8 cells. -/
theorem infer_turn_total_witness :
    infer_current_turn "x".data "8/8/8/8/8/8/8/8".data = none ∧
    (expand "K".data).length = 8 :=
  ⟨infer_turn_total.1 _ _ (Or.inl (by decide)), infer_turn_total.2 _⟩

/-- C3 counterexample: the bounding box 160×200 has area 32000 ≥ 10000 and
aspect ratio exactly 0.8 — inside the closed interval [0.8, 1.2] the claim
says survives — yet the filter discards it, because the code tests the strict
`0.8 < aspect < 1.2`. -/
theorem box_filter_boundary_cex :
    box_keeps 160 200 = false ∧ 10000 ≤ 160 * 200 ∧
    (0.8 : ℚ) ≤ aspect 160 200 ∧ aspect 160 200 ≤ (1.2 : ℚ) := by
  refine ⟨?_, by norm_num, ?_, ?_⟩ <;> norm_num [box_keeps, aspect]

/-- C3 amended: a contour's bounding box survives the filter exactly when its
area is at least the fixed minimum 10000 and its aspect ratio lies strictly
inside the open interval (0.8, 1.2). -/
theorem box_filter_keeps_iff :
    ∀ w h : Nat, box_keeps w h = true ↔
      10000 ≤ w * h ∧ (0.8 : ℚ) < aspect w h ∧ aspect w h < (1.2 : ℚ) := by
  intro w h
  simp [box_keeps, Nat.not_lt]

set_option maxHeartbeats 1600000 in
/-- C6: the pressure function is total and monotonic non-decreasing with range
inside [0, 1.1], takes the anchor values 0.0 at −400, 0.25 at −200, 0.50 at
−100, 0.75 at 0, 1.0 at 150, 1.1 at 400, and is clamped to 0.0 below −400 and
to 1.1 above 400. -/
theorem pressure_piecewise_spec :
    (∀ a b : ℚ, a ≤ b → compute_pressure a ≤ compute_pressure b) ∧
    (∀ e : ℚ, 0 ≤ compute_pressure e ∧ compute_pressure e ≤ 1.1) ∧
    compute_pressure (-400) = 0 ∧
    compute_pressure (-200) = 0.25 ∧
    compute_pressure (-100) = 0.50 ∧
    compute_pressure 0 = 0.75 ∧
    compute_pressure 150 = 1.0 ∧
    compute_pressure 400 = 1.1 ∧
    (∀ e : ℚ, e ≤ -400 → compute_pressure e = 0) ∧
    (∀ e : ℚ, 400 ≤ e → compute_pressure e = 1.1) := by
  refine ⟨?_, ?_, by norm_num [compute_pressure], by norm_num [compute_pressure],
    by norm_num [compute_pressure], by norm_num [compute_pressure],
    by norm_num [compute_pressure], by norm_num [compute_pressure], ?_, ?_⟩
  · intro a b hab
    unfold compute_pressure
    split_ifs <;> linarith
  · intro e
    unfold compute_pressure
    split_ifs <;> constructor <;> linarith
  · intro e he
    unfold compute_pressure
    split_ifs <;> linarith
  · intro e he
    unfold compute_pressure
    split_ifs <;> linarith

/-- C6 witness: monotonicity and the upper clamp applied at concrete evals. -/
theorem pressure_piecewise_spec_witness :
    compute_pressure (-300) ≤ compute_pressure 50 ∧
    compute_pressure 1000 = 1.1 :=
  ⟨pressure_piecewise_spec.1 (-300) 50 (by norm_num),
   pressure_piecewise_spec.2.2.2.2.2.2.2.2.2 1000 (by norm_num)⟩

lemma max_le_max_mul (f x a : ℚ) (hf : 0 < f) (ha : 1 ≤ a) :
    max f x ≤ max f (x * a) := by
  rcases le_or_lt x 0 with hx | hx
  · have hxa : x * a ≤ 0 := by nlinarith
    rw [max_eq_left (by linarith), max_eq_left (by linarith)]
  · exact max_le_max le_rfl (le_mul_of_one_le_right hx.le ha)

lemma temp_core (f B opp A : ℚ) (hf : 0 < f) (hA : 1 ≤ A) :
    max f (B * 1.0 * opp) ≤ max f (B * A * opp) := by
  have h1 : B * 1.0 * opp = B * opp * 1 := by ring
  have h2 : B * A * opp = B * opp * A := by ring
  rw [h1, h2, mul_one]
  exact max_le_max_mul f (B * opp) A hf hA

/-- C4 counterexample: at phase endgame, move number 0, pressure 0, trend 1,
criticality 1, opponent factor 0.6, the temperature with streak 5 equals the
temperature with streak 0 — both hit the floor 3 — so the streak does not
strictly increase it. -/
theorem streak_temperature_cex :
    compute_temperature .endgame 0 5 0 1 1 0.6 =
      compute_temperature .endgame 0 0 0 1 1 0.6 ∧
    compute_temperature .endgame 0 5 0 1 1 0.6 = 3 := by
  constructor <;> norm_num [compute_temperature, phase_base]

/-- C4 amended: for every fixed combination of phase, move number, pressure,
trend urgency, criticality and opponent factor, the temperature with a
consecutive-best streak of at least 5 is greater than or equal to (not always
strictly greater than) the temperature with a streak below 5; both can meet at
the temperature floor. -/
theorem streak_temperature_mono :
    ∀ (phase : Phase) (move_number s1 s2 : Nat)
      (pressure trend criticality opp : ℚ),
      5 ≤ s1 → s2 < 5 →
      compute_temperature phase move_number s2 pressure trend criticality opp ≤
        compute_temperature phase move_number s1 pressure trend criticality
          opp := by
  intro phase mv s1 s2 p tr cr opp hs1 hs2
  have hA : 1 ≤ min (1.0 + 0.07 * ((s1 : ℚ) - 4)) 1.35 := by
    have h5 : (5 : ℚ) ≤ (s1 : ℚ) := by exact_mod_cast hs1
    refine le_min (by linarith) (by norm_num)
  unfold compute_temperature
  simp only [if_pos hs1, if_neg (by omega : ¬ 5 ≤ s2)]
  split_ifs <;> exact temp_core _ _ _ _ (by norm_num) hA

/-- C4 witness: the amended inequality at a concrete combination. -/
theorem streak_temperature_mono_witness :
    compute_temperature .opening 10 0 1 0 0 1 ≤
      compute_temperature .opening 10 7 1 0 0 1 :=
  streak_temperature_mono .opening 10 7 0 1 0 0 1 (by norm_num) (by norm_num)

/-- C9: the selector's bookkeeping keeps `best_move_hits ≤ total_moves` after
every `select_move` and after `reset`; `get_accuracy` is `none` exactly when
`total_moves` is 0 and otherwise lies in [0, 100]. -/
theorem accuracy_bookkeeping :
    (∀ (pick : List Cand → ℚ → String) (fallback_best : Option String)
      (s : SelectorState) (top_moves : List Cand) (piece_count : Nat),
      s.best_move_hits ≤ s.total_moves →
      (select_move pick fallback_best s top_moves piece_count).2.best_move_hits ≤
        (select_move pick fallback_best s top_moves piece_count).2.total_moves) ∧
    resetState.best_move_hits ≤ resetState.total_moves ∧
    (∀ s : SelectorState, get_accuracy s = none ↔ s.total_moves = 0) ∧
    (∀ (s : SelectorState) (q : ℚ), s.best_move_hits ≤ s.total_moves →
      get_accuracy s = some q → 0 ≤ q ∧ q ≤ 100) := by
  refine ⟨?_, by decide, ?_, ?_⟩
  · intro pick fb s top pc h
    match top with
    | [] => simpa [select_move] using h
    | [m] => simpa [select_move, record] using h
    | a :: b :: t =>
      simp only [select_move, record]
      split_ifs <;> simp <;> omega
  · intro s
    unfold get_accuracy
    split_ifs with h0 <;> simp [h0]
  · intro s q h hq
    unfold get_accuracy at hq
    split_ifs at hq with h0
    obtain rfl : ((s.best_move_hits : ℚ) / s.total_moves) * 100 = q :=
      Option.some.inj hq
    constructor
    · positivity
    · have htpos : (0 : ℚ) < s.total_moves := by
        exact_mod_cast Nat.pos_of_ne_zero h0
      have hdiv : (s.best_move_hits : ℚ) / s.total_moves ≤ 1 := by
        rw [div_le_one htpos]
        exact_mod_cast h
      linarith

/-- C9 witness: the invariant after a concrete `select_move`, and the
accuracy bounds for a concrete state with one recorded best-move hit. -/
theorem accuracy_bookkeeping_witness :
    (select_move (fun _ _ => "e2e4") none resetState
      [⟨"e2e4", 20⟩, ⟨"d2d4", 10⟩] 32).2.best_move_hits ≤
      (select_move (fun _ _ => "e2e4") none resetState
        [⟨"e2e4", 20⟩, ⟨"d2d4", 10⟩] 32).2.total_moves ∧
    (0 ≤ (100 : ℚ) ∧ (100 : ℚ) ≤ 100) := by
  constructor
  · exact accuracy_bookkeeping.1 (fun _ _ => "e2e4") none resetState
      [⟨"e2e4", 20⟩, ⟨"d2d4", 10⟩] 32 (by decide)
  · exact accuracy_bookkeeping.2.2.2
      { resetState with total_moves := 1, best_move_hits := 1 } 100 (by decide)
      (by norm_num [get_accuracy, resetState])

/-- C1 counterexample: starting position to a position with all 16 pawns gone
(16 differing cells, so inference is skipped), yet `scan` does not keep the
previous turn — the rules-oracle fallback still runs and, with an oracle that
validates the new position (as the real one does here), the turn toggles from
"w" to "b" while the new position is committed. -/
theorem turn_noise_cex :
    diffCounts "rnbqkbnr/pppppppp/8/8/8/8/PPPPPPPP/RNBQKBNR".data
      "rnbqkbnr/8/8/8/8/8/8/RNBQKBNR".data = some (16, 0, 0) ∧
    scanAccept (fun _ _ => true)
      "rnbqkbnr/pppppppp/8/8/8/8/PPPPPPPP/RNBQKBNR".data
      "rnbqkbnr/8/8/8/8/8/8/RNBQKBNR".data "w" =
      ("rnbqkbnr/8/8/8/8/8/8/RNBQKBNR".data, "b") ∧
    ¬ ∀ (valid : List Char → String → Bool) (turn : String),
        scanAccept valid "rnbqkbnr/pppppppp/8/8/8/8/PPPPPPPP/RNBQKBNR".data
          "rnbqkbnr/8/8/8/8/8/8/RNBQKBNR".data turn =
          ("rnbqkbnr/8/8/8/8/8/8/RNBQKBNR".data, turn) := by
  refine ⟨by decide, by decide, fun hall => ?_⟩
  have h := hall (fun _ _ => true) "w"
  have hb : scanAccept (fun _ _ => true)
      "rnbqkbnr/pppppppp/8/8/8/8/PPPPPPPP/RNBQKBNR".data
      "rnbqkbnr/8/8/8/8/8/8/RNBQKBNR".data "w" =
      ("rnbqkbnr/8/8/8/8/8/8/RNBQKBNR".data, "b") := by decide
  rw [hb] at h
  exact absurd (congrArg Prod.snd h) (by decide)

/-- C1 amended: when the diff between the accepted position and the new
position has more than 6 differing cells, no turn inference is performed
(inference yields `none`) and the tracker instead applies the rules-oracle
fallback — the toggled turn if it validates, else the previous turn if it
validates, else the toggled turn — while still committing the new position as
the accepted one. -/
theorem turn_noise_amended :
    ∀ (valid : List Char → String → Bool) (old_p new_p : List Char)
      (turn : String) (changed wa ba : Nat),
      diffCounts old_p new_p = some (changed, wa, ba) → 6 < changed →
      infer_current_turn old_p new_p = none ∧
      scanAccept valid old_p new_p turn =
        (new_p,
          if valid new_p (toggle turn) then toggle turn
          else if valid new_p turn then turn
          else toggle turn) := by
  intro valid old_p new_p turn changed wa ba hd hc
  have h1 : infer_current_turn old_p new_p = none := by
    unfold infer_current_turn
    rw [hd]
    simp [hc]
  refine ⟨h1, ?_⟩
  unfold scanAccept scanTurnUpdate
  rw [h1]

/-- C1 witness: the amended behavior at the 16-cell-diff pair with an oracle
that validates nothing, where the fallback yields the toggled turn. -/
theorem turn_noise_amended_witness :
    infer_current_turn "rnbqkbnr/pppppppp/8/8/8/8/PPPPPPPP/RNBQKBNR".data
      "rnbqkbnr/8/8/8/8/8/8/RNBQKBNR".data = none ∧
    scanAccept (fun _ _ => false)
      "rnbqkbnr/pppppppp/8/8/8/8/PPPPPPPP/RNBQKBNR".data
      "rnbqkbnr/8/8/8/8/8/8/RNBQKBNR".data "w" =
      ("rnbqkbnr/8/8/8/8/8/8/RNBQKBNR".data, "b") := by
  have h := turn_noise_amended (fun _ _ => false)
    "rnbqkbnr/pppppppp/8/8/8/8/PPPPPPPP/RNBQKBNR".data
    "rnbqkbnr/8/8/8/8/8/8/RNBQKBNR".data "w" 16 0 0 (by decide) (by decide)
  exact ⟨h.1, h.2.trans (by decide)⟩

/-- C2 counterexample: a one-cell diff with zero arrivals (a tie) where
neither turn validates — the tracker adopts the *toggled* turn ("b" from "w"),
not the previous one, because `picked` is initialized to the toggled turn. -/
theorem tie_fallback_cex :
    diffCounts "4k3/8/8/8/8/8/8/4K2P".data "4k3/8/8/8/8/8/8/4K3".data =
      some (1, 0, 0) ∧
    scanTurnUpdate (fun _ _ => false) "4k3/8/8/8/8/8/8/4K2P".data
      "4k3/8/8/8/8/8/8/4K3".data "w" = "b" ∧
    ¬ ∀ (valid : List Char → String → Bool) (turn : String),
        valid "4k3/8/8/8/8/8/8/4K3".data (toggle turn) = false →
        valid "4k3/8/8/8/8/8/8/4K3".data turn = false →
        scanTurnUpdate valid "4k3/8/8/8/8/8/8/4K2P".data
          "4k3/8/8/8/8/8/8/4K3".data turn = turn := by
  refine ⟨by decide, by decide, fun hall => ?_⟩
  have h := hall (fun _ _ => false) "w" rfl rfl
  have hb : scanTurnUpdate (fun _ _ => false) "4k3/8/8/8/8/8/8/4K2P".data
      "4k3/8/8/8/8/8/8/4K3".data "w" = "b" := by decide
  rw [hb] at h
  exact absurd h (by decide)

/-- C2 amended: on a tie in arrivals (including zero) within at most 6 changed
cells, inference yields `none` and the fallback tries the toggled turn first,
then the previous turn, adopting the first that validates; when *neither*
validates, the toggled turn (not the previous one) is adopted. -/
theorem tie_fallback_amended :
    ∀ (valid : List Char → String → Bool) (old_p new_p : List Char)
      (turn : String) (changed arrivals : Nat),
      diffCounts old_p new_p = some (changed, arrivals, arrivals) →
      changed ≤ 6 →
      infer_current_turn old_p new_p = none ∧
      (valid new_p (toggle turn) = true →
        scanTurnUpdate valid old_p new_p turn = toggle turn) ∧
      (valid new_p (toggle turn) = false → valid new_p turn = true →
        scanTurnUpdate valid old_p new_p turn = turn) ∧
      (valid new_p (toggle turn) = false → valid new_p turn = false →
        scanTurnUpdate valid old_p new_p turn = toggle turn) := by
  intro valid old_p new_p turn changed arrivals hd hc
  have h1 : infer_current_turn old_p new_p = none := by
    unfold infer_current_turn
    rw [hd]
    simp [Nat.not_lt.2 hc]
  refine ⟨h1, fun hv1 => ?_, fun hv1 hv2 => ?_, fun hv1 hv2 => ?_⟩
  · unfold scanTurnUpdate
    rw [h1]
    simp [hv1]
  · unfold scanTurnUpdate
    rw [h1]
    simp [hv1, hv2]
  · unfold scanTurnUpdate
    rw [h1]
    simp [hv1, hv2]

/-- C2 witness: the tie pair with an oracle validating only the previous turn,
where the fallback keeps the previous turn. -/
theorem tie_fallback_amended_witness :
    infer_current_turn "4k3/8/8/8/8/8/8/4K2P".data
      "4k3/8/8/8/8/8/8/4K3".data = none ∧
    scanTurnUpdate (fun _ t => decide (t = "w")) "4k3/8/8/8/8/8/8/4K2P".data
      "4k3/8/8/8/8/8/8/4K3".data "w" = "w" := by
  have h := tie_fallback_amended (fun _ t => decide (t = "w"))
    "4k3/8/8/8/8/8/8/4K2P".data "4k3/8/8/8/8/8/8/4K3".data "w" 1 0
    (by decide) (by decide)
  exact ⟨h.1, h.2.2.1 (by decide) (by decide)⟩
